import Mathlib

/-!
Verification of the image-service core (picsum-photos): a shallow embedding
of the worker queue (internal/queue), the coalescing image handler
(internal/imageapi/image.go) and the request-log middleware
(internal/handler), together with theorems settling the specified
properties of those components.  The first half of the file holds the
definitions traced from the Go source; the second half holds the theorems.
-/

namespace ImageService

/-! ## Go error values -/

/-- The error values that flow through the queue, the handler and the
logger.  `canceled` and `deadlineExceeded` are the two context
cancellation causes (context.Canceled / context.DeadlineExceeded);
`shutdown` models the "queue has been shutdown" error built in `Process`;
`queueFull` models the package-level ErrQueueFull value that the image
handler branches on; `other` stands for any remaining error value. -/
inductive GoErr
  | canceled
  | deadlineExceeded
  | shutdown
  | queueFull
  | other (code : Nat)
deriving DecidableEq, Repr

/-- A Go context, reduced to what the embedded code observes of it:
`ctx.Err()`, which is `none` while the context is live and `some e`
once it is done with cause `e`. -/
structure Ctx where
  err : Option GoErr
deriving DecidableEq, Repr

/-- The live (not cancelled) context. -/
def liveCtx : Ctx := { err := none }

/-! ## Worker queue (internal/queue)

The Go `Queue` struct holds the worker count, the intake channel
(`make(chan job, workers*4)`), the handler function and the parent
context.  The channel's runtime state is made explicit: its buffered
contents, whether it has been closed by `Run`, and its capacity.  The
handler function is passed to the Lean functions that need it. -/

/-- A job as placed on the intake channel: payload and the submitting
caller's context.  The single-use result channel it carries is modelled
separately (`ResultChan`). -/
structure Job (α : Type) where
  data : α
  context : Ctx
deriving DecidableEq, Repr

/-- The value sent on a job's result channel: `jobResult{result, err}`. -/
structure JobResult (β : Type) where
  result : Option β
  err : Option GoErr
deriving DecidableEq, Repr

/-- The queue together with the runtime state of its intake channel. -/
structure Queue (α : Type) where
  workers : Nat
  buffer : List (Job α)
  capacity : Nat
  closed : Bool
  parentErr : Option GoErr
deriving DecidableEq, Repr

/-- `New(ctx, workers, handler)`: a queue whose intake channel has buffer
capacity `workers * 4`, initially empty and open. -/
def Queue.new (α : Type) (parentErr : Option GoErr) (workers : Nat) : Queue α :=
  { workers := workers
    buffer := []
    capacity := workers * 4
    closed := false
    parentErr := parentErr }

/-- The tail of `Run()`: after the parent cancellation fires
(`<-q.ctx.Done()`), `Run` closes the intake channel. -/
def Queue.runAfterParentCancelled (q : Queue α) : Queue α :=
  { q with closed := true }

/-- Possible outcomes of the submission phase of `Process` (the guard on
`q.ctx.Err()` followed by the three-way select around the channel send).
`queueFullErr` is included so that its absence from the code's behaviour
can be stated; `blocked` records that no select case is ready and the
goroutine suspends. -/
inductive EnqueueOutcome
  | enqueued
  | shutdownErr
  | callerErr (e : GoErr)
  | queueFullErr
  | blocked
deriving DecidableEq, Repr

/-- The submission phase of `Process(ctx, data)`, traced from the source:
first the `q.ctx.Err() != nil` guard, then a select whose cases are the
channel send (ready when buffer space remains or a worker is ready to
receive directly), the parent context's Done and the caller context's
Done.  The returned list contains every outcome the Go select may choose
among; when no case is ready the select (and hence `Process`) blocks. -/
def Queue.processSelect (q : Queue α) (caller : Ctx) (workerReady : Bool) :
    List EnqueueOutcome :=
  if q.parentErr.isSome then [EnqueueOutcome.shutdownErr]
  else
    let sendReady : Bool := decide (q.buffer.length < q.capacity) || workerReady
    let ready :=
      (if sendReady then [EnqueueOutcome.enqueued] else []) ++
      (if q.parentErr.isSome then [EnqueueOutcome.shutdownErr] else []) ++
      (match caller.err with
       | some e => [EnqueueOutcome.callerErr e]
       | none => [])
    if ready = [] then [EnqueueOutcome.blocked] else ready

/-- The actions a worker's select may take in a given queue state: receive
a buffered job, observe the closed intake channel and return, or take the
`<-q.ctx.Done()` branch and return.  A receive on a closed channel still
yields buffered jobs first, so `exitClosed` is only ready once the buffer
is drained. -/
inductive WorkerAction (α : Type)
  | takeJob (j : Job α)
  | exitClosed
  | exitParentDone
deriving DecidableEq, Repr

/-- The worker loop's select, traced from the source: the receive case
yields the oldest buffered job, or the closed-channel signal once the
buffer is empty and the channel is closed; the `q.ctx.Done()` case is
ready whenever the parent context is done.  The list contains every
action the Go select may choose among. -/
def Queue.workerSelect (q : Queue α) : List (WorkerAction α) :=
  (match q.buffer with
   | j :: _ => [WorkerAction.takeJob j]
   | [] => if q.closed then [WorkerAction.exitClosed] else []) ++
  (if q.parentErr.isSome then [WorkerAction.exitParentDone] else [])

/-- The body of the worker loop for one received job, traced from the
source: if the job's context is already cancelled, send that cancellation
error (with a nil result) on the job's result channel and do not invoke
the handler; otherwise invoke the handler on the job's context and
payload and send its `(result, error)` pair.  The Bool records whether
the handler was invoked. -/
def handleJob (handler : Ctx → α → Option β × Option GoErr) (j : Job α) :
    JobResult β × Bool :=
  match j.context.err with
  | some e => ({ result := none, err := some e }, false)
  | none =>
    let r := handler j.context j.data
    ({ result := r.1, err := r.2 }, true)

/-- The results a worker sends while draining a sequence of received
jobs, each handled by `handleJob` and followed by `continue`. -/
def workerDrain (handler : Ctx → α → Option β × Option GoErr) :
    List (Job α) → List (JobResult β)
  | [] => []
  | j :: rest => (handleJob handler j).1 :: workerDrain handler rest

/-- The thread-level actions a worker performs, used to state the
OS-thread pinning property. -/
inductive ThreadAction
  | lockOSThread
  | unlockOSThread
  | consumeJob
  | exitLoop
deriving DecidableEq, Repr

/-- The thread-action trace of the worker loop over the jobs it
receives: one `consumeJob` per job, then the loop exit. -/
def workerLoopTrace : List (Job α) → List ThreadAction
  | [] => [ThreadAction.exitLoop]
  | _ :: rest => ThreadAction.consumeJob :: workerLoopTrace rest

/-- The thread-action trace of a whole worker, traced from the source:
`runtime.LockOSThread()` first, then the loop.  The source never calls
`runtime.UnlockOSThread()`. -/
def workerTrace (jobs : List (Job α)) : List ThreadAction :=
  ThreadAction.lockOSThread :: workerLoopTrace jobs

/-- A job's single-use result channel of buffer capacity 1: empty, or
holding the one value sent into it. -/
def ResultChan (β : Type) : Type := Option (JobResult β)

/-- The fresh channel made by `Process` (`make(chan jobResult, 1)`). -/
def newResultChan (β : Type) : ResultChan β := none

/-- A channel send: succeeds without blocking exactly when the buffer
slot is free; `none` means the send would block. -/
def chanSend (c : ResultChan β) (v : JobResult β) : Option (ResultChan β) :=
  match c with
  | none => some (some v)
  | some _ => none

/-- Outcomes of the await phase of `Process` after a successful enqueue. -/
inductive AwaitOutcome (β : Type)
  | fromWorker (result : Option β) (err : Option GoErr)
  | callerCancelled (e : GoErr)
deriving DecidableEq, Repr

/-- The await phase of `Process`, traced from the source: select on the
result channel (on receive, return `(nil, err)` when the worker reported
an error, else `(result, nil)`) and on the caller's Done (return
`ctx.Err()`).  The list contains every outcome the Go select may choose
among; it is empty exactly when `Process` stays blocked. -/
def processAwait (c : ResultChan β) (caller : Ctx) : List (AwaitOutcome β) :=
  (match c with
   | some jr =>
     [if jr.err.isSome then AwaitOutcome.fromWorker none jr.err
      else AwaitOutcome.fromWorker jr.result none]
   | none => []) ++
  (match caller.err with
   | some e => [AwaitOutcome.callerCancelled e]
   | none => [])

/-! ## Request-log middleware (internal/handler, Logger) -/

/-- Log severities used by the request-log middleware. -/
inductive LogLevel
  | debug
  | info
  | error
deriving DecidableEq, Repr

/-- The severity switch of the Logger middleware, traced from the source:
a Go switch over the captured status code and the request context's
error, with cases evaluated in order: 503 with context.Canceled logs Info
("Request cancelled by client"), 503 with context.DeadlineExceeded logs
Error ("Request timeout"), any other code at least 500 logs Error, and
everything else logs Debug. -/
def loggerSeverity (code : Nat) (ctxErr : Option GoErr) : LogLevel :=
  if code = 503 ∧ ctxErr = some GoErr.canceled then LogLevel.info
  else if code = 503 ∧ ctxErr = some GoErr.deadlineExceeded then LogLevel.error
  else if 500 ≤ code then LogLevel.error
  else LogLevel.debug

/-! ## Coalescing image handler (internal/imageapi/image.go)

The cache-miss / request-coalescing section of `imageHandler`, embedded
as a function of the facts one request thread observes: the first cache
`Get`, whether `LoadOrStore` loaded an existing in-flight channel, what
woke a waiter, the post-wake cache re-`Get`, and how the `ProcessImage`
call ends.  The function returns the handler's response together with
the ordered list of side effects the request performs on the in-flight
map, the completion channel and the result cache. -/

/-- How the `ProcessImage` call ends for this request: encoded bytes, an
error, or a panic (which propagates to the Recovery middleware). -/
inductive ProcOutcome (β : Type)
  | ok (bytes : β)
  | err (e : GoErr)
  | panics
deriving DecidableEq, Repr

/-- What wakes a waiter blocked in the coalescing select: the completion
channel closing, or the request context's Done. -/
inductive WaiterWake
  | signal
  | ctxDone
deriving DecidableEq, Repr

/-- The environment one request observes while running the coalescing
section of `imageHandler`. -/
structure HandlerEnv (β : Type) where
  firstGet : Option β
  loaded : Bool
  wake : WaiterWake
  secondGet : Option β
  proc : ProcOutcome β
deriving DecidableEq, Repr

/-- The side effects a request performs, in program order:
`storeInflight` is the store half of `LoadOrStore`; `procCall` is the
`ProcessImage` invocation; `deleteInflight` is `a.inflight.Delete`;
`closeChan` is `close(done)`, the completion broadcast; `cacheAdd` is
`a.imageCache.Add`. -/
inductive HandlerEvent (β : Type)
  | storeInflight
  | procCall
  | deleteInflight
  | closeChan
  | cacheAdd (b : β)
deriving DecidableEq, Repr

/-- The handler's outcome for this request. -/
inductive HandlerResp (β : Type)
  | ok (b : β)
  | err500
  | err503
  | panicked
deriving DecidableEq, Repr

/-- The producer section of `imageHandler`, traced from the source:
invoke `ProcessImage`; on panic, control leaves the handler (the cleanup
is not deferred, so neither the delete nor the close runs); on normal
return, `if !loaded` delete the in-flight entry and then close the
completion channel; then map the error (`ErrQueueFull` to 503, anything
else to 500) or, on success, add the bytes to the result cache and send
the image. -/
def producerRun (loaded : Bool) (proc : ProcOutcome β) :
    HandlerResp β × List (HandlerEvent β) :=
  match proc with
  | ProcOutcome.panics => (HandlerResp.panicked, [HandlerEvent.procCall])
  | ProcOutcome.err e =>
    (if e = GoErr.queueFull then HandlerResp.err503 else HandlerResp.err500,
     HandlerEvent.procCall ::
       (if loaded then [] else [HandlerEvent.deleteInflight, HandlerEvent.closeChan]))
  | ProcOutcome.ok b =>
    (HandlerResp.ok b,
     HandlerEvent.procCall ::
       (if loaded then [] else [HandlerEvent.deleteInflight, HandlerEvent.closeChan]) ++
       [HandlerEvent.cacheAdd b])

/-- The cache-miss / coalescing section of `imageHandler`, traced from
the source: `Get` the cache; on miss, `LoadOrStore(cacheKey, done)`; a
waiter (loaded) selects on the existing channel and its context, on
signal re-`Get`s the cache and on a second miss falls through to the
producer section without re-registering; a storer (not loaded) runs the
producer section directly. -/
def imageHandler (env : HandlerEnv β) : HandlerResp β × List (HandlerEvent β) :=
  match env.firstGet with
  | some b => (HandlerResp.ok b, [])
  | none =>
    if env.loaded then
      match env.wake with
      | WaiterWake.ctxDone => (HandlerResp.err500, [])
      | WaiterWake.signal =>
        match env.secondGet with
        | some b => (HandlerResp.ok b, [])
        | none => producerRun true env.proc
    else
      let pr := producerRun false env.proc
      (pr.1, HandlerEvent.storeInflight :: pr.2)

/-! ## Fingerprints and filenames (buildCacheKey / buildFilename)

Go's `fmt.Sprintf("%d", n)` on a non-negative int is embedded as
`goItoa`, a fuel-driven decimal printer; `buildCacheKey` and
`buildFilename` are then direct transcriptions of the source's string
concatenations. -/

/-- The character of a decimal digit. -/
def digitChar (d : Nat) : Char := Char.ofNat (48 + d)

/-- Decimal digits of `n`, most significant first; structurally
recursive on a fuel bound. -/
def itoaAux : Nat → Nat → List Char
  | 0, _ => []
  | fuel + 1, n => if n = 0 then [] else itoaAux fuel (n / 10) ++ [digitChar (n % 10)]

/-- Go's decimal rendering of a non-negative integer (`%d`). -/
def goItoa (n : Nat) : String := if n = 0 then "0" else String.mk (itoaAux n n)

/-- The request parameters (internal/params), as the handler consumes
them: path-derived width/height/extension and the blur/grayscale query
flags. -/
structure Params where
  width : Nat
  height : Nat
  extension : String
  blur : Bool
  blurAmount : Nat
  grayscale : Bool
deriving DecidableEq, Repr

/-- `buildCacheKey`, traced from the source: the fingerprint
`{id}-{width}x{height}{extension}` with `-blur_{n}` appended when blur
is set and `-grayscale` appended when grayscale is set. -/
def buildCacheKey (imageID : String) (p : Params) : String :=
  let key := imageID ++ "-" ++ goItoa p.width ++ "x" ++ goItoa p.height ++ p.extension
  let key2 := if p.blur then key ++ "-blur_" ++ goItoa p.blurAmount else key
  if p.grayscale then key2 ++ "-grayscale" else key2

/-- `buildFilename`, traced from the source: `{id}-{width}x{height}`,
then the optional `-blur_{n}` and `-grayscale` suffixes, and the
extension appended last. -/
def buildFilename (imageID : String) (p : Params) : String :=
  let f := imageID ++ "-" ++ goItoa p.width ++ "x" ++ goItoa p.height
  let f2 := if p.blur then f ++ "-blur_" ++ goItoa p.blurAmount else f
  let f3 := if p.grayscale then f2 ++ "-grayscale" else f2
  f3 ++ p.extension

/-- The parameter space of the specification: positive dimensions up to
5000, extension exactly ".jpg" or ".webp", and when blur is set an
amount in [1,10]. -/
def ValidParams (p : Params) : Prop :=
  0 < p.width ∧ p.width ≤ 5000 ∧ 0 < p.height ∧ p.height ≤ 5000 ∧
  (p.extension = ".jpg" ∨ p.extension = ".webp") ∧
  (p.blur = false ∨ (1 ≤ p.blurAmount ∧ p.blurAmount ≤ 10))

instance (p : Params) : Decidable (ValidParams p) := by
  unfold ValidParams
  infer_instance

/-- Equality of two parameter vectors as points of the parameter space:
all fields agree, the blur amount being meaningful only when the blur
flag is set. -/
def sameParams (p1 p2 : Params) : Prop :=
  p1.width = p2.width ∧ p1.height = p2.height ∧ p1.extension = p2.extension ∧
  p1.blur = p2.blur ∧ p1.grayscale = p2.grayscale ∧
  (p1.blur = true → p1.blurAmount = p2.blurAmount)

/-- The characters the blur suffix contributes to the cache key. -/
def blurChars (p : Params) : List Char :=
  if p.blur then '-' :: 'b' :: 'l' :: 'u' :: 'r' :: '_' :: (goItoa p.blurAmount).data else []

/-- The characters the grayscale suffix contributes to the cache key. -/
def grayChars (p : Params) : List Char :=
  if p.grayscale then ['-', 'g', 'r', 'a', 'y', 's', 'c', 'a', 'l', 'e'] else []

/-- The cache key after the leading id and dash, as a character list. -/
def bodyChars (p : Params) : List Char :=
  (goItoa p.width).data ++
    'x' :: ((goItoa p.height).data ++ (p.extension.data ++ (blurChars p ++ grayChars p)))

/-- The cache key after the id, as a character list. -/
def tailChars (p : Params) : List Char := '-' :: bodyChars p

/-- The filename after the id, as a character list: suffixes before the
extension, unlike `tailChars`. -/
def fileTailChars (p : Params) : List Char :=
  '-' :: ((goItoa p.width).data ++
    'x' :: ((goItoa p.height).data ++ (blurChars p ++ (grayChars p ++ p.extension.data))))

/-- Holds when no dash in the list is immediately followed by a digit. -/
def noDashDigit : List Char → Bool
  | [] => true
  | c :: r =>
    (if c = '-' then
       match r with
       | [] => true
       | d :: _ => !d.isDigit
     else true) && noDashDigit r

/-- The list is empty or starts with a non-digit character. -/
def headNotDigit (l : List Char) : Prop :=
  ∀ c, l.head? = some c → c.isDigit = false

/-! ## Concrete inputs used by counterexamples and witnesses -/

/-- A concrete saturated queue: one worker, hence capacity 4, with four
jobs buffered, channel open, parent live. -/
def qFull : Queue Nat :=
  { workers := 1
    buffer := [⟨0, liveCtx⟩, ⟨1, liveCtx⟩, ⟨2, liveCtx⟩, ⟨3, liveCtx⟩]
    capacity := 4
    closed := false
    parentErr := none }

/-- A concrete stuck state after shutdown: parent cancelled, channel
closed by `Run`, one job still buffered. -/
def qStuck : Queue Nat :=
  { workers := 1
    buffer := [⟨0, liveCtx⟩]
    capacity := 4
    closed := true
    parentErr := some GoErr.canceled }

/-- The concrete failing environment for the in-flight leak: an original
storer (miss, not loaded) whose `ProcessImage` call panics. -/
def panicEnv : HandlerEnv Nat :=
  { firstGet := none
    loaded := false
    wake := WaiterWake.signal
    secondGet := none
    proc := ProcOutcome.panics }

/-- A waiter environment: woken by the signal, second read hits. -/
def waiterHitEnv : HandlerEnv Nat :=
  { firstGet := none
    loaded := true
    wake := WaiterWake.signal
    secondGet := some 9
    proc := ProcOutcome.ok 9 }

/-- A waiter environment: woken by the signal, second read misses. -/
def waiterMissEnv : HandlerEnv Nat :=
  { firstGet := none
    loaded := true
    wake := WaiterWake.signal
    secondGet := none
    proc := ProcOutcome.ok 9 }

/-- A concrete grayscale parameter vector. -/
def pGrayEx : Params :=
  { width := 2, height := 3, extension := ".jpg", blur := false, blurAmount := 0,
    grayscale := true }

/-- A concrete plain parameter vector. -/
def pPlain : Params :=
  { width := 100, height := 200, extension := ".jpg", blur := false, blurAmount := 0,
    grayscale := false }

/-! ## Theorems: worker queue -/

/-- C1: Claimed — when the intake buffer (4 x worker_count) is full and no
worker is ready to receive, `Process` fails with the dedicated QueueFull
error instead of blocking on the send.  The code does the opposite: at the
saturated state its submission select has no ready case, so `Process`
blocks, and the enqueue never yields the QueueFull outcome — the enqueue
is a plain blocking send and `ErrQueueFull` is never returned by
`Process`, even though the image handler branches on it. -/
theorem process_full_queue_blocks_never_queueFull :
    Queue.processSelect qFull liveCtx false = [EnqueueOutcome.blocked] ∧
    EnqueueOutcome.queueFullErr ∉ Queue.processSelect qFull liveCtx false ∧
    qFull.capacity = qFull.workers * 4 ∧ qFull.buffer.length = qFull.capacity := by
  refine ⟨rfl, ?_, rfl, rfl⟩
  decide

/-- Helper: the submission select never produces the QueueFull outcome in
any state. -/
theorem processSelect_no_queueFull (q : Queue α) (c : Ctx) (w : Bool) :
    EnqueueOutcome.queueFullErr ∉ q.processSelect c w := by
  unfold Queue.processSelect
  rcases hp : q.parentErr with _ | e1 <;> rcases hc : c.err with _ | e2 <;>
    simp [hp, hc] <;> split <;> simp_all

/-- C6 counterexample: after the parent cancellation has fired and `Run`
has closed the intake channel, a worker whose select takes the
`q.ctx.Done()` branch exits while an enqueued job is still undrained —
the exit action is among the select's ready actions at a state with a
non-empty buffer. -/
theorem worker_may_exit_with_undrained_job :
    WorkerAction.exitParentDone ∈ qStuck.workerSelect ∧ qStuck.buffer ≠ [] := by
  constructor
  · decide
  · decide

/-- C6 amended: once the parent cancellation has fired, every `Process`
call fails immediately with the shutdown error; `Run` closes the intake
channel; and a worker exits through the closed-channel branch only once
the buffer is drained — but the worker's select also has the parent-Done
exit branch, which is ready whenever the parent context is done, so a
worker may also exit before the buffer is drained (drain on shutdown is
not guaranteed). -/
theorem queue_shutdown_behaviour (α : Type) (q : Queue α) (c : Ctx) (w : Bool)
    (h : q.parentErr.isSome) :
    q.processSelect c w = [EnqueueOutcome.shutdownErr] ∧
    (q.runAfterParentCancelled).closed = true ∧
    (WorkerAction.exitClosed ∈ q.workerSelect → q.buffer = [] ∧ q.closed = true) ∧
    WorkerAction.exitParentDone ∈ q.workerSelect := by
  refine ⟨?_, rfl, ?_, ?_⟩
  · unfold Queue.processSelect
    simp [h]
  · intro hmem
    unfold Queue.workerSelect at hmem
    rcases hq : q.buffer with _ | ⟨j, rest⟩ <;> rw [hq] at hmem
    · refine ⟨rfl, ?_⟩
      simp only [List.mem_append] at hmem
      rcases hmem with hmem | hmem
      · split at hmem <;> simp_all
      · split at hmem <;> simp_all
    · simp only [List.mem_append, List.mem_singleton] at hmem
      rcases hmem with hmem | hmem
      · simp at hmem
      · split at hmem <;> simp_all
  · unfold Queue.workerSelect
    simp [h]

/-- C6 amended witness. -/
theorem queue_shutdown_behaviour_witness :
    (qStuck.parentErr.isSome ∧
      qStuck.processSelect liveCtx false = [EnqueueOutcome.shutdownErr]) ∧
    (qStuck.runAfterParentCancelled).closed = true := by
  have h := queue_shutdown_behaviour Nat qStuck liveCtx false (by decide)
  exact ⟨⟨by decide, h.1⟩, h.2.1⟩

/-- C7: For every job a worker receives: if the job's own context is
already cancelled, the worker sends that cancellation error (with a nil
result) on the job's result channel without invoking the handler and
continues with the next job; otherwise it invokes the handler on the
job's context and payload and sends exactly the handler's (result,
error).  The drain loop applies this to each received job in turn. -/
theorem worker_job_handling (α β : Type)
    (handler : Ctx → α → Option β × Option GoErr) (j : Job α)
    (jobs : List (Job α)) :
    (∀ e, j.context.err = some e →
      handleJob handler j = ({ result := none, err := some e }, false)) ∧
    (j.context.err = none →
      handleJob handler j =
        ({ result := (handler j.context j.data).1
           err := (handler j.context j.data).2 }, true)) ∧
    workerDrain handler jobs = jobs.map (fun jb => (handleJob handler jb).1) := by
  refine ⟨?_, ?_, ?_⟩
  · intro e he
    unfold handleJob
    rw [he]
  · intro he
    unfold handleJob
    rw [he]
  · induction jobs with
    | nil => rfl
    | cons jb rest ih => simp [workerDrain, ih]

/-- C7 witness: a cancelled job yields its cancellation error without the
handler running; a live job yields the handler's pair. -/
theorem worker_job_handling_witness :
    handleJob (fun _ n => (some (n + 1), none)) (⟨5, ⟨some GoErr.canceled⟩⟩ : Job Nat)
      = ({ result := none, err := some GoErr.canceled }, false) ∧
    handleJob (fun _ n => (some (n + 1), none)) (⟨5, liveCtx⟩ : Job Nat)
      = ({ result := some 6, err := none }, true) := by
  have h1 := worker_job_handling Nat Nat (fun _ n => (some (n + 1), none))
    ⟨5, ⟨some GoErr.canceled⟩⟩ []
  have h2 := worker_job_handling Nat Nat (fun _ n => (some (n + 1), none))
    ⟨5, liveCtx⟩ []
  exact ⟨h1.1 GoErr.canceled rfl, h2.2.1 rfl⟩

/-- C8: after a successful enqueue, every outcome the await select can
choose is either the worker's (result, error) pair read off the result
channel or the caller's cancellation error; once the caller's context is
cancelled the cancellation outcome is ready (the select cannot stay
blocked); and the worker's send into the job's fresh single-use result
channel of capacity 1 never blocks, so an abandoned job never blocks its
worker. -/
theorem process_await_result_or_cancellation (β : Type) (c : ResultChan β)
    (caller : Ctx) :
    (∀ e, caller.err = some e →
      AwaitOutcome.callerCancelled e ∈ processAwait c caller) ∧
    (∀ o ∈ processAwait c caller,
      (∃ jr : JobResult β, c = some jr ∧
        o = (if jr.err.isSome then AwaitOutcome.fromWorker none jr.err
             else AwaitOutcome.fromWorker jr.result none)) ∨
      (∃ e, caller.err = some e ∧ o = AwaitOutcome.callerCancelled e)) ∧
    (∀ v : JobResult β, chanSend (newResultChan β) v = some (some v)) := by
  refine ⟨?_, ?_, fun _ => rfl⟩
  · intro e he
    unfold processAwait
    rw [he]
    cases c <;> simp
  · intro o ho
    unfold processAwait at ho
    simp only [List.mem_append] at ho
    rcases ho with ho | ho
    · cases hc : c with
      | none => rw [hc] at ho; simp at ho
      | some jr =>
        rw [hc] at ho
        simp only [List.mem_singleton] at ho
        exact Or.inl ⟨jr, rfl, ho⟩
    · cases he : caller.err with
      | none => rw [he] at ho; simp at ho
      | some e =>
        rw [he] at ho
        simp only [List.mem_singleton] at ho
        exact Or.inr ⟨e, rfl, ho⟩

/-- C8 witness: with a cancelled caller and an empty result channel, the
cancellation outcome is ready, and a send into a fresh channel succeeds. -/
theorem process_await_result_or_cancellation_witness :
    AwaitOutcome.callerCancelled GoErr.canceled ∈
      processAwait (newResultChan Nat) ⟨some GoErr.canceled⟩ ∧
    chanSend (newResultChan Nat) ⟨some 7, none⟩ = some (some ⟨some 7, none⟩) := by
  have h := process_await_result_or_cancellation Nat (newResultChan Nat)
    ⟨some GoErr.canceled⟩
  exact ⟨h.1 GoErr.canceled rfl, h.2.2 ⟨some 7, none⟩⟩

/-- Helper: the worker loop itself contains no unlock action. -/
theorem unlock_not_in_workerLoopTrace (jobs : List (Job α)) :
    ThreadAction.unlockOSThread ∉ workerLoopTrace jobs := by
  induction jobs with
  | nil => simp [workerLoopTrace]
  | cons jb rest ih =>
    simp only [workerLoopTrace, List.mem_cons]
    rintro (h | h)
    · exact absurd h (by decide)
    · exact ih h

/-- C10: every worker locks its OS thread as its first action, before
consuming any job, and never unlocks it: the trace starts with
`lockOSThread`, contains no `unlockOSThread`, and every job consumption
occurs strictly after the lock. -/
theorem worker_thread_pinning (α : Type) (jobs : List (Job α)) :
    (workerTrace jobs).head? = some ThreadAction.lockOSThread ∧
    ThreadAction.unlockOSThread ∉ workerTrace jobs ∧
    (∀ i, (workerTrace jobs)[i]? = some ThreadAction.consumeJob → 0 < i) := by
  refine ⟨rfl, ?_, ?_⟩
  · unfold workerTrace
    intro hmem
    rcases List.mem_cons.mp hmem with h | h
    · exact absurd h (by decide)
    · exact unlock_not_in_workerLoopTrace jobs h
  · intro i hi
    cases i with
    | zero => simp [workerTrace] at hi
    | succ n => exact Nat.succ_pos n

/-- C10 witness. -/
theorem worker_thread_pinning_witness :
    (workerTrace ([⟨0, liveCtx⟩] : List (Job Nat))).head?
      = some ThreadAction.lockOSThread ∧
    ThreadAction.unlockOSThread ∉ workerTrace ([⟨0, liveCtx⟩] : List (Job Nat)) := by
  have h := worker_thread_pinning Nat [⟨0, liveCtx⟩]
  exact ⟨h.1, h.2.1⟩

/-! ## Theorems: request-log middleware -/

/-- C9: the request-log middleware selects severity as a function of the
status code and the request context's error: Info for 503 with
context.Canceled, Error for 503 with context.DeadlineExceeded, Error for
any other combination with status at least 500, and Debug in all
remaining cases. -/
theorem logger_severity_selection (code : Nat) (e : Option GoErr) :
    (code = 503 → e = some GoErr.canceled →
      loggerSeverity code e = LogLevel.info) ∧
    (code = 503 → e = some GoErr.deadlineExceeded →
      loggerSeverity code e = LogLevel.error) ∧
    (500 ≤ code → ¬(code = 503 ∧ e = some GoErr.canceled) →
      loggerSeverity code e = LogLevel.error) ∧
    (code < 500 → loggerSeverity code e = LogLevel.debug) := by
  refine ⟨?_, ?_, ?_, ?_⟩
  · intro hc he
    unfold loggerSeverity
    rw [if_pos ⟨hc, he⟩]
  · intro hc he
    unfold loggerSeverity
    rw [if_neg (by simp [hc, he]), if_pos ⟨hc, he⟩]
  · intro hc hne
    unfold loggerSeverity
    rw [if_neg hne]
    split
    · rfl
    · simp [hc]
  · intro hc
    unfold loggerSeverity
    rw [if_neg (by omega), if_neg (by omega), if_neg (by omega)]

/-- C9 witness: the four severity cases at concrete inputs. -/
theorem logger_severity_selection_witness :
    loggerSeverity 503 (some GoErr.canceled) = LogLevel.info ∧
    loggerSeverity 503 (some GoErr.deadlineExceeded) = LogLevel.error ∧
    loggerSeverity 500 none = LogLevel.error ∧
    loggerSeverity 200 none = LogLevel.debug := by
  refine ⟨?_, ?_, ?_, ?_⟩
  · exact (logger_severity_selection 503 (some GoErr.canceled)).1 rfl rfl
  · exact (logger_severity_selection 503 (some GoErr.deadlineExceeded)).2.1 rfl rfl
  · exact (logger_severity_selection 500 none).2.2.1 (by omega) (by simp)
  · exact (logger_severity_selection 200 none).2.2.2 (by omega)

/-! ## Theorems: coalescing image handler -/

/-- C2: Claimed — on every producer exit, including a panic during
processing, the producer deletes the in-flight entry and then broadcasts.
The code violates the panic case: the cleanup after `ProcessImage` is not
deferred, so when the processor panics the original storer (it stored the
in-flight entry and invoked the processor) exits without deleting the
in-flight entry and without closing the completion channel — the entry is
leaked. -/
theorem producer_panic_leaks_inflight :
    (imageHandler panicEnv).2 = [HandlerEvent.storeInflight, HandlerEvent.procCall] ∧
    HandlerEvent.storeInflight ∈ (imageHandler panicEnv).2 ∧
    HandlerEvent.procCall ∈ (imageHandler panicEnv).2 ∧
    HandlerEvent.deleteInflight ∉ (imageHandler panicEnv).2 ∧
    HandlerEvent.closeChan ∉ (imageHandler panicEnv).2 := by
  refine ⟨rfl, ?_, ?_, ?_, ?_⟩ <;> decide

/-- C3: a waiter that wakes on the completion signal re-reads the result
cache; on hit it returns the cached bytes having performed no effects at
all; on miss it becomes a producer itself — the processor is invoked —
without re-registering in the in-flight map, and on exit (success, error
or panic) it neither deletes the in-flight entry nor broadcasts; and
across all environments, any request that deletes the entry or
broadcasts is an original storer. -/
theorem waiter_wake_fall_through (β : Type) (env : HandlerEnv β)
    (hmiss : env.firstGet = none) (hloaded : env.loaded = true)
    (hwake : env.wake = WaiterWake.signal) :
    (∀ b, env.secondGet = some b →
      imageHandler env = (HandlerResp.ok b, [])) ∧
    (env.secondGet = none →
      HandlerEvent.procCall ∈ (imageHandler env).2 ∧
      HandlerEvent.storeInflight ∉ (imageHandler env).2 ∧
      HandlerEvent.deleteInflight ∉ (imageHandler env).2 ∧
      HandlerEvent.closeChan ∉ (imageHandler env).2) ∧
    (∀ env2 : HandlerEnv β,
      HandlerEvent.deleteInflight ∈ (imageHandler env2).2 ∨
        HandlerEvent.closeChan ∈ (imageHandler env2).2 →
      HandlerEvent.storeInflight ∈ (imageHandler env2).2) := by
  refine ⟨?_, ?_, ?_⟩
  · intro b hb
    unfold imageHandler
    rw [hmiss, hloaded, hwake, hb]
    rfl
  · intro hb
    unfold imageHandler
    rw [hmiss, hloaded, hwake, hb]
    simp only [if_pos]
    cases env.proc with
    | ok bytes => refine ⟨?_, ?_, ?_, ?_⟩ <;> simp [producerRun]
    | err e => refine ⟨?_, ?_, ?_, ?_⟩ <;> simp [producerRun]
    | panics => refine ⟨?_, ?_, ?_, ?_⟩ <;> simp [producerRun]
  · intro env2 hdel
    obtain ⟨fg, l, wk, sg, pc⟩ := env2
    cases fg <;> cases l <;> cases wk <;> cases sg <;> cases pc <;>
      simp_all [imageHandler, producerRun]

/-- C3 witness: a waiter woken by the signal with a cache hit returns
the cached bytes with no effects; one with a second miss invokes the
processor without storing, deleting or broadcasting. -/
theorem waiter_wake_fall_through_witness :
    imageHandler waiterHitEnv = (HandlerResp.ok 9, []) ∧
    HandlerEvent.procCall ∈ (imageHandler waiterMissEnv).2 := by
  have h1 := waiter_wake_fall_through Nat waiterHitEnv rfl rfl rfl
  have h2 := waiter_wake_fall_through Nat waiterMissEnv rfl rfl rfl
  exact ⟨h1.1 9 rfl, (h2.2.1 rfl).1⟩

/-! ## Theorems: decimal rendering -/

/-- The fuel-driven digit printer agrees with the mathematical digit
expansion whenever the fuel covers the argument. -/
theorem itoaAux_eq (fuel : Nat) : ∀ n : Nat, n ≤ fuel →
    itoaAux fuel n = ((Nat.digits 10 n).map digitChar).reverse := by
  induction fuel with
  | zero =>
    intro n hn
    have : n = 0 := Nat.le_zero.mp hn
    subst this
    simp [itoaAux]
  | succ f ih =>
    intro n hn
    by_cases h0 : n = 0
    · subst h0
      simp [itoaAux]
    · have hpos : 0 < n := Nat.pos_of_ne_zero h0
      rw [Nat.digits_def' (by norm_num : (1:Nat) < 10) hpos]
      have hdiv : n / 10 ≤ f := by
        have h1 : n / 10 < n := Nat.div_lt_self hpos (by norm_num)
        omega
      simp only [itoaAux, if_neg h0, List.map_cons, List.reverse_cons]
      rw [ih (n / 10) hdiv]

/-- The characters of a positive decimal rendering. -/
theorem goItoa_data (n : Nat) (h : n ≠ 0) :
    (goItoa n).data = ((Nat.digits 10 n).map digitChar).reverse := by
  unfold goItoa
  rw [if_neg h]
  exact itoaAux_eq n n le_rfl

theorem digitChar_toNat (d : Nat) (h : d < 10) : (digitChar d).toNat = 48 + d := by
  interval_cases d <;> rfl

theorem digitChar_isDigit (d : Nat) (h : d < 10) : (digitChar d).isDigit = true := by
  interval_cases d <;> rfl

theorem digitChar_inj (d e : Nat) (hd : d < 10) (he : e < 10)
    (h : digitChar d = digitChar e) : d = e := by
  have h1 := digitChar_toNat d hd
  have h2 := digitChar_toNat e he
  rw [h, h2] at h1
  omega

/-- Every character of a decimal rendering is a digit. -/
theorem goItoa_chars_digit (n : Nat) : ∀ c ∈ (goItoa n).data, c.isDigit = true := by
  intro c hc
  by_cases h0 : n = 0
  · subst h0
    simp only [show (goItoa 0).data = ['0'] from rfl, List.mem_singleton] at hc
    subst hc
    rfl
  · rw [goItoa_data n h0] at hc
    rw [List.mem_reverse, List.mem_map] at hc
    obtain ⟨d, hd, rfl⟩ := hc
    exact digitChar_isDigit d (Nat.digits_lt_base (by norm_num) hd)

theorem goItoa_data_ne_nil (n : Nat) : (goItoa n).data ≠ [] := by
  by_cases h0 : n = 0
  · subst h0; decide
  · rw [goItoa_data n h0]
    simp only [ne_eq, List.reverse_eq_nil_iff, List.map_eq_nil_iff]
    exact Nat.digits_ne_nil_iff_ne_zero.mpr h0

theorem map_digitChar_inj : ∀ l1 l2 : List Nat, (∀ d ∈ l1, d < 10) → (∀ d ∈ l2, d < 10) →
    l1.map digitChar = l2.map digitChar → l1 = l2 := by
  intro l1
  induction l1 with
  | nil => intro l2 _ _ h; cases l2 <;> simp_all
  | cons d l1' ih =>
    intro l2 h1 h2 h
    cases l2 with
    | nil => simp at h
    | cons e l2' =>
      simp only [List.map_cons, List.cons.injEq] at h
      have hde : d = e := digitChar_inj d e (h1 d (by simp)) (h2 e (by simp)) h.1
      have := ih l2' (fun x hx => h1 x (by simp [hx])) (fun x hx => h2 x (by simp [hx])) h.2
      rw [hde, this]

/-- Decimal rendering is injective. -/
theorem goItoa_data_inj (m n : Nat) (h : (goItoa m).data = (goItoa n).data) : m = n := by
  by_cases hm : m = 0 <;> by_cases hn : n = 0
  · omega
  · exfalso
    subst hm
    rw [goItoa_data n hn] at h
    have hmap : (Nat.digits 10 n).map digitChar = ['0'] := by
      have := congrArg List.reverse h
      simpa using this.symm
    have hdig : Nat.digits 10 n = [0] := by
      cases hd : Nat.digits 10 n with
      | nil => rw [hd] at hmap; simp at hmap
      | cons a t =>
        rw [hd] at hmap
        cases t with
        | nil =>
          simp only [List.map_cons, List.map_nil, List.cons.injEq, and_true] at hmap
          have ha : a < 10 := Nat.digits_lt_base (by norm_num) (by rw [hd]; simp)
          have : a = 0 := digitChar_inj a 0 ha (by norm_num) (by rw [hmap]; rfl)
          rw [this]
        | cons b t' => simp at hmap
    have := Nat.ofDigits_digits 10 n
    rw [hdig] at this
    simp [Nat.ofDigits] at this
    omega
  · exfalso
    subst hn
    rw [goItoa_data m hm] at h
    have hmap : (Nat.digits 10 m).map digitChar = ['0'] := by
      have := congrArg List.reverse h
      simpa using this
    have hdig : Nat.digits 10 m = [0] := by
      cases hd : Nat.digits 10 m with
      | nil => rw [hd] at hmap; simp at hmap
      | cons a t =>
        rw [hd] at hmap
        cases t with
        | nil =>
          simp only [List.map_cons, List.map_nil, List.cons.injEq, and_true] at hmap
          have ha : a < 10 := Nat.digits_lt_base (by norm_num) (by rw [hd]; simp)
          have : a = 0 := digitChar_inj a 0 ha (by norm_num) (by rw [hmap]; rfl)
          rw [this]
        | cons b t' => simp at hmap
    have := Nat.ofDigits_digits 10 m
    rw [hdig] at this
    simp [Nat.ofDigits] at this
    omega
  · rw [goItoa_data m hm, goItoa_data n hn] at h
    have hmap := List.reverse_injective h
    have hdig := map_digitChar_inj _ _
      (fun d hd => Nat.digits_lt_base (by norm_num) hd)
      (fun d hd => Nat.digits_lt_base (by norm_num) hd) hmap
    have h1 := Nat.ofDigits_digits 10 m
    have h2 := Nat.ofDigits_digits 10 n
    rw [hdig] at h1
    rw [← h1, h2]

/-! ## Theorems: dash-digit analysis of the cache key -/

theorem noDashDigit_cons (c : Char) (r : List Char) :
    noDashDigit (c :: r) =
      ((if c = '-' then
          match r with
          | [] => true
          | d :: _ => !d.isDigit
        else true) && noDashDigit r) := rfl

theorem noDashDigit_tail (c : Char) (r : List Char) (h : noDashDigit (c :: r) = true) :
    noDashDigit r = true := by
  rw [noDashDigit_cons, Bool.and_eq_true] at h
  exact h.2

/-- In a list without dash-digit windows, no suffix starts with a dash
followed by a digit. -/
theorem noDashDigit_suffix (l : List Char) (hl : noDashDigit l = true)
    (d : Char) (r : List Char) (h : ('-' :: d :: r) <:+ l) : d.isDigit = false := by
  induction l with
  | nil => simp at h
  | cons c t ih =>
    rcases List.suffix_cons_iff.mp h with heq | hsuf
    · have hc : c = '-' := by
        have := congrArg List.head? heq
        simpa using this.symm
      have ht : t = d :: r := by
        have := congrArg List.tail heq
        simpa using this.symm
      subst hc
      subst ht
      rw [noDashDigit_cons, Bool.and_eq_true] at hl
      have := hl.1
      simp only [if_pos rfl] at this
      simpa using this
    · exact ih (noDashDigit_tail c t hl) hsuf

theorem noDashDigit_append (xs ys : List Char) (hx : '-' ∉ xs)
    (hy : noDashDigit ys = true) : noDashDigit (xs ++ ys) = true := by
  induction xs with
  | nil => simpa using hy
  | cons c xs' ih =>
    have hc : c ≠ '-' := fun h => hx (h ▸ List.mem_cons_self c xs')
    have hx' : '-' ∉ xs' := fun h => hx (List.mem_cons_of_mem c h)
    rw [List.cons_append, noDashDigit_cons, Bool.and_eq_true]
    exact ⟨by rw [if_neg hc], ih hx'⟩

theorem noDashDigit_cons_of_ne (c : Char) (r : List Char) (hc : c ≠ '-')
    (h : noDashDigit r = true) : noDashDigit (c :: r) = true := by
  rw [noDashDigit_cons, if_neg hc, Bool.true_and]
  exact h

theorem noDashDigit_dash_cons (d : Char) (r : List Char) (hd : d.isDigit = false)
    (h : noDashDigit (d :: r) = true) : noDashDigit ('-' :: d :: r) = true := by
  rw [noDashDigit_cons, if_pos rfl, Bool.and_eq_true]
  refine ⟨?_, h⟩
  show (!d.isDigit) = true
  rw [hd]
  rfl

/-- Splitting an equation between digit blocks followed by non-digit
continuations: the blocks and the continuations agree separately. -/
theorem digits_append_inj : ∀ a b s t : List Char,
    (∀ c ∈ a, c.isDigit = true) → (∀ c ∈ b, c.isDigit = true) →
    headNotDigit s → headNotDigit t →
    a ++ s = b ++ t → a = b ∧ s = t := by
  intro a
  induction a with
  | nil =>
    intro b s t _ hb hs _ h
    cases b with
    | nil => simpa using h
    | cons db b' =>
      exfalso
      simp only [List.nil_append, List.cons_append] at h
      have hhead : s.head? = some db := by rw [h]; rfl
      have := hs db hhead
      rw [hb db (by simp)] at this
      exact Bool.noConfusion this
  | cons da a' ih =>
    intro b s t ha hb hs ht h
    cases b with
    | nil =>
      exfalso
      simp only [List.cons_append, List.nil_append] at h
      have hhead : t.head? = some da := by rw [← h]; rfl
      have := ht da hhead
      rw [ha da (by simp)] at this
      exact Bool.noConfusion this
    | cons db b' =>
      simp only [List.cons_append, List.cons.injEq] at h
      obtain ⟨hde, hrest⟩ := h
      have := ih b' s t (fun x hx => ha x (by simp [hx])) (fun x hx => hb x (by simp [hx])) hs ht hrest
      exact ⟨by rw [hde, this.1], this.2⟩

theorem dash_not_in_goItoa (n : Nat) : '-' ∉ (goItoa n).data := by
  intro h
  have := goItoa_chars_digit n '-' h
  exact absurd this (by decide)

theorem jpg_data : (".jpg" : String).data = ['.', 'j', 'p', 'g'] := rfl

theorem webp_data : (".webp" : String).data = ['.', 'w', 'e', 'b', 'p'] := rfl

theorem grayTag_data :
    ("-grayscale" : String).data = ['-', 'g', 'r', 'a', 'y', 's', 'c', 'a', 'l', 'e'] := rfl

theorem noDashDigit_grayChars (p : Params) : noDashDigit (grayChars p) = true := by
  unfold grayChars
  split <;> decide

theorem noDashDigit_blur_gray (p : Params) :
    noDashDigit (blurChars p ++ grayChars p) = true := by
  unfold blurChars
  split
  · simp only [List.cons_append]
    refine noDashDigit_dash_cons 'b' _ (by decide) ?_
    refine noDashDigit_cons_of_ne 'b' _ (by decide) ?_
    refine noDashDigit_cons_of_ne 'l' _ (by decide) ?_
    refine noDashDigit_cons_of_ne 'u' _ (by decide) ?_
    refine noDashDigit_cons_of_ne 'r' _ (by decide) ?_
    refine noDashDigit_cons_of_ne '_' _ (by decide) ?_
    exact noDashDigit_append _ _ (dash_not_in_goItoa _) (noDashDigit_grayChars p)
  · simpa using noDashDigit_grayChars p

/-- No dash in the cache-key body is immediately followed by a digit:
the only dashes are the blur and grayscale markers, followed by letters. -/
theorem noDashDigit_body (p : Params)
    (hext : p.extension = ".jpg" ∨ p.extension = ".webp") :
    noDashDigit (bodyChars p) = true := by
  unfold bodyChars
  refine noDashDigit_append _ _ (dash_not_in_goItoa _) ?_
  refine noDashDigit_cons_of_ne 'x' _ (by decide) ?_
  refine noDashDigit_append _ _ (dash_not_in_goItoa _) ?_
  refine noDashDigit_append _ _ ?_ (noDashDigit_blur_gray p)
  rcases hext with h | h <;> rw [h] <;> decide

/-- Every cache-key tail starts with a dash followed by a digit (the
most significant digit of the width). -/
theorem tailChars_shape (p : Params) :
    ∃ d r, tailChars p = '-' :: d :: r ∧ d.isDigit = true := by
  unfold tailChars bodyChars
  cases hW : (goItoa p.width).data with
  | nil => exact absurd hW (goItoa_data_ne_nil _)
  | cons d w' =>
    refine ⟨d, w' ++ 'x' :: ((goItoa p.height).data ++
      (p.extension.data ++ (blurChars p ++ grayChars p))), by simp, ?_⟩
    exact goItoa_chars_digit p.width d (by rw [hW]; simp)

/-- A cache-key tail is never a proper suffix of another cache-key tail:
the inner tail would have to start at a dash-digit window inside the
outer body, which `noDashDigit_body` excludes. -/
theorem tail_no_proper_suffix (pA pB : Params)
    (hA : pA.extension = ".jpg" ∨ pA.extension = ".webp")
    (k : List Char) (hk : tailChars pA = k ++ tailChars pB) : k = [] := by
  cases k with
  | nil => rfl
  | cons c k' =>
    exfalso
    obtain ⟨d, r, hshape, hdig⟩ := tailChars_shape pB
    have hbody : bodyChars pA = k' ++ tailChars pB := by
      have h2 : ('-' : Char) :: bodyChars pA = c :: (k' ++ tailChars pB) := by
        rw [show ('-' : Char) :: bodyChars pA = tailChars pA from rfl, hk, List.cons_append]
      exact (List.cons.injEq .. ▸ h2).2
    have hsuf : ('-' :: d :: r) <:+ bodyChars pA := by
      refine ⟨k', ?_⟩
      rw [← hshape, ← hbody]
    have := noDashDigit_suffix _ (noDashDigit_body pA hA) d r hsuf
    rw [hdig] at this
    exact Bool.noConfusion this

/-! ## Theorems: fingerprint injectivity and the filename -/

theorem headNotDigit_cons (c : Char) (hc : c.isDigit = false) (l : List Char) :
    headNotDigit (c :: l) := by
  intro x hx
  obtain rfl : c = x := by simpa using hx
  exact hc

theorem headNotDigit_grayChars (p : Params) : headNotDigit (grayChars p) := by
  unfold grayChars
  split
  · exact headNotDigit_cons '-' (by decide) _
  · intro x hx
    simp at hx

theorem headNotDigit_ext_append (p : Params)
    (hext : p.extension = ".jpg" ∨ p.extension = ".webp") (l : List Char) :
    headNotDigit (p.extension.data ++ l) := by
  rcases hext with h | h <;> rw [h]
  · rw [jpg_data]
    exact headNotDigit_cons '.' (by decide) _
  · rw [webp_data]
    exact headNotDigit_cons '.' (by decide) _

theorem grayChars_inj (p1 p2 : Params) (h : grayChars p1 = grayChars p2) :
    p1.grayscale = p2.grayscale := by
  unfold grayChars at h
  cases hg1 : p1.grayscale <;> cases hg2 : p2.grayscale <;>
    rw [hg1, hg2] at h <;> simp_all

/-- Equal cache-key tails come from the same parameter vector. -/
theorem tailChars_inj (p1 p2 : Params)
    (hext1 : p1.extension = ".jpg" ∨ p1.extension = ".webp")
    (hext2 : p2.extension = ".jpg" ∨ p2.extension = ".webp")
    (h : tailChars p1 = tailChars p2) : sameParams p1 p2 := by
  unfold tailChars at h
  have hbody : bodyChars p1 = bodyChars p2 := (List.cons.injEq .. ▸ h).2
  unfold bodyChars at hbody
  have hW := digits_append_inj _ _ _ _ (goItoa_chars_digit p1.width)
    (goItoa_chars_digit p2.width)
    (headNotDigit_cons 'x' (by decide) _) (headNotDigit_cons 'x' (by decide) _) hbody
  have hwidth : p1.width = p2.width := goItoa_data_inj _ _ hW.1
  have hrest1 := (List.cons.injEq .. ▸ hW.2).2
  have hH := digits_append_inj _ _ _ _ (goItoa_chars_digit p1.height)
    (goItoa_chars_digit p2.height)
    (headNotDigit_ext_append p1 hext1 _) (headNotDigit_ext_append p2 hext2 _) hrest1
  have hheight : p1.height = p2.height := goItoa_data_inj _ _ hH.1
  have hEBG := hH.2
  have hextEq : p1.extension = p2.extension := by
    rcases hext1 with h1 | h1 <;> rcases hext2 with h2 | h2
    · rw [h1, h2]
    · exfalso
      rw [h1, h2, jpg_data, webp_data] at hEBG
      simp only [List.cons_append, List.cons.injEq] at hEBG
      exact absurd hEBG.2.1 (by decide)
    · exfalso
      rw [h1, h2, jpg_data, webp_data] at hEBG
      simp only [List.cons_append, List.cons.injEq] at hEBG
      exact absurd hEBG.2.1 (by decide)
    · rw [h1, h2]
  have hBG : blurChars p1 ++ grayChars p1 = blurChars p2 ++ grayChars p2 := by
    rw [hextEq] at hEBG
    exact List.append_cancel_left hEBG
  have hblur : p1.blur = p2.blur ∧ (p1.blur = true → p1.blurAmount = p2.blurAmount) ∧
      p1.grayscale = p2.grayscale := by
    unfold blurChars at hBG
    cases hb1 : p1.blur <;> cases hb2 : p2.blur <;> rw [hb1, hb2] at hBG
    · simp only [Bool.false_eq_true, if_false, List.nil_append] at hBG
      exact ⟨rfl, by intro hc; exact absurd hc (by simp), grayChars_inj p1 p2 hBG⟩
    · exfalso
      simp only [Bool.false_eq_true, if_false, if_true, List.nil_append,
        List.cons_append] at hBG
      unfold grayChars at hBG
      cases hg1 : p1.grayscale <;> rw [hg1] at hBG
      · simp at hBG
      · simp only [if_true] at hBG
        injection hBG with h1 h2
        injection h2 with h3 h4
        exact absurd h3 (by decide)
    · exfalso
      simp only [Bool.false_eq_true, if_false, if_true, List.nil_append,
        List.cons_append] at hBG
      unfold grayChars at hBG
      cases hg2 : p2.grayscale <;> rw [hg2] at hBG
      · simp at hBG
      · simp only [if_true] at hBG
        injection hBG with h1 h2
        injection h2 with h3 h4
        exact absurd h3 (by decide)
    · simp only [if_true, List.cons_append, List.cons.injEq, true_and] at hBG
      have hD := digits_append_inj _ _ _ _ (goItoa_chars_digit p1.blurAmount)
        (goItoa_chars_digit p2.blurAmount)
        (headNotDigit_grayChars p1) (headNotDigit_grayChars p2) hBG
      exact ⟨rfl, fun _ => goItoa_data_inj _ _ hD.1, grayChars_inj p1 p2 hD.2⟩
  exact ⟨hwidth, hheight, hextEq, hblur.1, hblur.2.2, hblur.2.1⟩

/-- The cache key as the id's characters followed by the tail. -/
theorem buildCacheKey_data (id : String) (p : Params) :
    (buildCacheKey id p).data = id.data ++ tailChars p := by
  unfold buildCacheKey tailChars bodyChars blurChars grayChars
  cases hb : p.blur <;> cases hg : p.grayscale <;>
    simp [String.data_append, grayTag_data, List.append_assoc]

/-- The filename as the id's characters followed by its tail. -/
theorem buildFilename_data (id : String) (p : Params) :
    (buildFilename id p).data = id.data ++ fileTailChars p := by
  unfold buildFilename fileTailChars blurChars grayChars
  cases hb : p.blur <;> cases hg : p.grayscale <;>
    simp [String.data_append, grayTag_data, List.append_assoc]

theorem string_eq_of_data (s t : String) (h : s.data = t.data) : s = t := by
  cases s
  cases t
  exact congrArg String.mk h

/-- The fingerprint is injective over the parameter space: equal cache
keys force equal ids (no valid tail is a proper suffix of another) and
equal parameter vectors. -/
theorem buildCacheKey_injective (id1 id2 : String) (p1 p2 : Params)
    (h1 : ValidParams p1) (h2 : ValidParams p2)
    (hkey : buildCacheKey id1 p1 = buildCacheKey id2 p2) :
    id1 = id2 ∧ sameParams p1 p2 := by
  have hd : id1.data ++ tailChars p1 = id2.data ++ tailChars p2 := by
    rw [← buildCacheKey_data, ← buildCacheKey_data, hkey]
  have hext1 := h1.2.2.2.2.1
  have hext2 := h2.2.2.2.2.1
  rcases List.append_eq_append_iff.mp hd with ⟨k, hk1, hk2⟩ | ⟨k, hk1, hk2⟩
  · have hknil := tail_no_proper_suffix p1 p2 hext1 k hk2
    subst hknil
    have hid : id1 = id2 := string_eq_of_data _ _ (by rw [hk1, List.append_nil])
    refine ⟨hid, tailChars_inj p1 p2 hext1 hext2 (by simpa using hk2)⟩
  · have hknil := tail_no_proper_suffix p2 p1 hext2 k hk2
    subst hknil
    have hid : id1 = id2 := string_eq_of_data _ _ (by rw [hk1, List.append_nil])
    refine ⟨hid, tailChars_inj p1 p2 hext1 hext2 (by rw [hk2, List.nil_append])⟩

/-- C4: for every parameter vector of the specification's space the
fingerprint equals id-widthxheight extension with the optional blur and
grayscale suffixes, and the mapping is stable (a pure function of the
parameters) and injective: two valid requests with equal fingerprints
have the same id and the same parameters. -/
theorem fingerprint_format_injective (id : String) (p : Params)
    (id1 id2 : String) (p1 p2 : Params)
    (hne1 : id1 ≠ "") (hne2 : id2 ≠ "") (h1 : ValidParams p1) (h2 : ValidParams p2) :
    (buildCacheKey id p =
      id ++ "-" ++ goItoa p.width ++ "x" ++ goItoa p.height ++ p.extension ++
        (if p.blur then "-blur_" ++ goItoa p.blurAmount else "") ++
        (if p.grayscale then "-grayscale" else "")) ∧
    (buildCacheKey id1 p1 = buildCacheKey id2 p2 → id1 = id2 ∧ sameParams p1 p2) := by
  constructor
  · unfold buildCacheKey
    cases hb : p.blur <;> cases hg : p.grayscale <;>
      simp [String.append_assoc, String.append_empty]
  · exact buildCacheKey_injective id1 id2 p1 p2 h1 h2

/-- C4 witness: the format and the injectivity applied at a concrete
valid request. -/
theorem fingerprint_format_injective_witness :
    buildCacheKey "1" pPlain = "1-100x200.jpg" ∧
    (("1" : String) = "1" ∧ sameParams pPlain pPlain) := by
  have h := fingerprint_format_injective "1" pPlain "1" "1" pPlain pPlain
    (by decide) (by decide) (by decide) (by decide)
  exact ⟨by decide, h.2 rfl⟩

/-- C5 counterexample: for a grayscale request the Content-Disposition
filename is not the fingerprint — `buildFilename` appends the extension
after the suffixes while `buildCacheKey` places it before them. -/
theorem filename_ne_fingerprint_gray :
    buildFilename "1" pGrayEx ≠ buildCacheKey "1" pGrayEx ∧
    buildFilename "1" pGrayEx = "1-2x3-grayscale.jpg" ∧
    buildCacheKey "1" pGrayEx = "1-2x3.jpg-grayscale" := by
  refine ⟨?_, ?_, ?_⟩ <;> decide

/-- C5 amended: the Content-Disposition filename is
id-widthxheight with the optional blur and grayscale suffixes and the
extension appended last; it equals the fingerprint exactly when neither
blur nor grayscale is set (on success responses without transforms), and
differs from it whenever blur or grayscale is set. -/
theorem filename_format_and_key_relation (id : String) (p : Params)
    (hv : ValidParams p) :
    (buildFilename id p =
      id ++ "-" ++ goItoa p.width ++ "x" ++ goItoa p.height ++
        (if p.blur then "-blur_" ++ goItoa p.blurAmount else "") ++
        (if p.grayscale then "-grayscale" else "") ++ p.extension) ∧
    ((p.blur = false ∧ p.grayscale = false) ↔ buildFilename id p = buildCacheKey id p) := by
  constructor
  · unfold buildFilename
    cases hb : p.blur <;> cases hg : p.grayscale <;>
      simp [String.append_assoc, String.append_empty]
  · constructor
    · rintro ⟨hb, hg⟩
      unfold buildFilename buildCacheKey
      rw [hb, hg]
      simp [String.append_assoc]
    · intro heq
      by_contra hcon
      have hdata : fileTailChars p = tailChars p := by
        have hc := congrArg String.data heq
        rw [buildFilename_data, buildCacheKey_data] at hc
        exact List.append_cancel_left hc
      unfold fileTailChars tailChars bodyChars at hdata
      injection hdata with h1 h2
      have h3 := List.append_cancel_left h2
      injection h3 with h4 h5
      have h6 := List.append_cancel_left h5
      cases hb : p.blur
      · cases hg : p.grayscale
        · exact hcon ⟨hb, hg⟩
        · unfold blurChars grayChars at h6
          rw [hb, hg] at h6
          simp only [Bool.false_eq_true, if_false, if_true, List.nil_append] at h6
          rcases hv.2.2.2.2.1 with hx | hx <;> rw [hx] at h6
          · rw [jpg_data] at h6
            simp only [List.cons_append] at h6
            injection h6 with hh _
            exact absurd hh (by decide)
          · rw [webp_data] at h6
            simp only [List.cons_append] at h6
            injection h6 with hh _
            exact absurd hh (by decide)
      · unfold blurChars at h6
        rw [hb] at h6
        simp only [if_true, List.cons_append] at h6
        rcases hv.2.2.2.2.1 with hx | hx <;> rw [hx] at h6
        · rw [jpg_data] at h6
          simp only [List.cons_append] at h6
          injection h6 with hh _
          exact absurd hh (by decide)
        · rw [webp_data] at h6
          simp only [List.cons_append] at h6
          injection h6 with hh _
          exact absurd hh (by decide)

/-- C5 amended witness: without transforms the filename coincides with
the fingerprint. -/
theorem filename_format_and_key_relation_witness :
    buildFilename "1" pPlain = buildCacheKey "1" pPlain := by
  have h := filename_format_and_key_relation "1" pPlain (by decide)
  exact h.2.mp ⟨rfl, rfl⟩

end ImageService
